import Mathlib

/-!
Verification of the CSV validation and sanitization utilities of the
shop-floor front-end (src/utils/csvSafety.ts and src/utils/headerValidation.ts),
shallowly embedded over `List Char` / `String`.

JavaScript values that flow through these utilities (string, null, undefined)
are modelled by `JSValue`; rows (`Record<string, any>` objects) are modelled
by association lists in insertion order, as `Object.entries` enumerates them.
All functions are total and executable, mirroring the source, which never
throws on expected input.
-/

namespace ShopFloor

/-- The JavaScript values the CSV utilities receive: `null`, `undefined`,
or a string.  (Numeric inputs reach the utilities already converted by
`String(value)`, so a string constructor suffices for every claim.) -/
inductive JSValue where
  | null
  | undefined
  | str (s : String)
deriving DecidableEq, Repr

/-- JavaScript `String(value)` on the values of `JSValue`. -/
def jsString : JSValue → String
  | .null => "null"
  | .undefined => "undefined"
  | .str s => s

/-- JavaScript whitespace test used by `String.prototype.trim` (the
characters that actually occur in this code base: space, tab, LF, CR). -/
def isJsSpace (c : Char) : Bool := c.isWhitespace

/-- `String.prototype.trim` on the character list: drop leading and
trailing whitespace. -/
def trimChars (l : List Char) : List Char :=
  ((l.dropWhile isJsSpace).reverse.dropWhile isJsSpace).reverse

/-- `String.prototype.trim`. -/
def jsTrim (s : String) : String := ⟨trimChars s.data⟩

/-- `String.prototype.toLowerCase` (ASCII, which covers every header and
alias in the tables). -/
def jsToLower (s : String) : String := ⟨s.data.map Char.toLower⟩

/-- The single-quote character (U+0027). -/
def singleQuoteChar : Char := Char.ofNat 39

/-- `Array.prototype.join(sep)`. -/
def joinSep (sep : String) : List String → String
  | [] => ""
  | [x] => x
  | x :: xs => x ++ sep ++ joinSep sep xs

/-! ## csvSafety.ts -/

/-- `FORMULA_INJECTION_PREFIXES` from csvSafety.ts: the characters that can
trigger formula injection, as one-character strings. -/
def FORMULA_INJECTION_PREFIXES : List String := ["=", "+", "-", "@", "\t", "\r"]

/-- The same six trigger characters, as characters; used to state claims
about the first character of a value. -/
def formulaTriggerChars : List Char := ['=', '+', '-', '@', '\t', '\r']

/-- `sanitizeCSVValue` from csvSafety.ts: null and undefined become the
empty string; a string starting with a formula-injection character is
prefixed with a single quote; anything else is returned unchanged. -/
def sanitizeCSVValue (value : JSValue) : String :=
  match value with
  | .null => ""
  | .undefined => ""
  | .str s =>
    if FORMULA_INJECTION_PREFIXES.any (fun p => p.data.isPrefixOf s.data) then
      "'" ++ s
    else
      s

/-- `sanitizeCSVRow` from csvSafety.ts: copy the row, keeping the system
fields `id`, `created_at`, `updated_at` untouched and sanitizing every
other value.  A JS object has distinct keys and `Object.entries` yields
them in insertion order, so the row is an association list and the copy
is a map over it. -/
def sanitizeCSVRow (row : List (String × JSValue)) : List (String × JSValue) :=
  row.map (fun p =>
    if p.1 = "id" ∨ p.1 = "created_at" ∨ p.1 = "updated_at" then
      p
    else
      (p.1, .str (sanitizeCSVValue p.2)))

/-- The `replace(/"/g, '""')` step of `escapeCSVField`: double every
double-quote character. -/
def doubleQuotes : List Char → List Char
  | [] => []
  | c :: rest =>
    if c = '"' then '"' :: '"' :: doubleQuotes rest else c :: doubleQuotes rest

/-- `escapeCSVField` from csvSafety.ts: null and undefined become the empty
string; otherwise the value is sanitized, its double quotes are doubled,
and the result is wrapped in double quotes when it contains a comma,
newline, carriage return or double quote. -/
def escapeCSVField (value : JSValue) : String :=
  match value with
  | .null => ""
  | .undefined => ""
  | .str s =>
    let sanitized := sanitizeCSVValue (.str s)
    let escaped : String := ⟨doubleQuotes sanitized.data⟩
    if escaped.data.contains ',' || escaped.data.contains '\n' ||
        escaped.data.contains '\r' || escaped.data.contains '"' then
      "\"" ++ escaped ++ "\""
    else
      escaped

/-! ## headerValidation.ts -/

/-- `REQUIRED_HEADERS` from headerValidation.ts. -/
def REQUIRED_HEADERS : List String := ["PartMark", "AssemblyMark", "Material", "Thickness"]

/-- `HEADER_ALIASES` from headerValidation.ts: alternate spellings accepted
for the canonical headers (including the registered typo "thicknes"). -/
def HEADER_ALIASES : List (String × String) :=
  [("part_mark", "PartMark"), ("partmark", "PartMark"),
   ("part-mark", "PartMark"), ("part mark", "PartMark"),
   ("assembly_mark", "AssemblyMark"), ("assemblymark", "AssemblyMark"),
   ("assembly-mark", "AssemblyMark"), ("assembly mark", "AssemblyMark"),
   ("material", "Material"), ("materials", "Material"),
   ("thickness", "Thickness"), ("thick", "Thickness"), ("thicknes", "Thickness")]

/-- `normalizeHeader` from headerValidation.ts: trim, then try a
case-insensitive match against the canonical set, then the alias table on
the lowercased form, else return the trimmed original. -/
def normalizeHeader (header : String) : String :=
  let trimmed := jsTrim header
  let lower := jsToLower trimmed
  match REQUIRED_HEADERS.find? (fun req => jsToLower req == lower) with
  | some req => req
  | none =>
    match HEADER_ALIASES.lookup lower with
    | some canon => canon
    | none => trimmed

/-- Result record of `validateRequiredHeaders`. -/
structure HeaderValidationResult where
  isValid : Bool
  missingHeaders : List String
  normalizedHeaders : List String
  warnings : List String
deriving DecidableEq, Repr

/-- `validateRequiredHeaders` from headerValidation.ts: normalize every
header, collect the required headers no normalized header equals (in
required order, as the source loop does), and warn about duplicate
normalized headers and about headers empty after trimming. -/
def validateRequiredHeaders (headers : List String) : HeaderValidationResult :=
  let normalized := headers.map normalizeHeader
  let missingHeaders :=
    REQUIRED_HEADERS.filter (fun req => !(normalized.any (fun h => h == req)))
  let duplicates :=
    (normalized.enum.filter (fun p => normalized.indexOf p.2 ≠ p.1)).map Prod.snd
  let emptyCount := (headers.filter (fun h => jsTrim h == "")).length
  let warnings :=
    (if duplicates.length > 0 then
      ["Duplicate headers found: " ++ joinSep ", " duplicates] else []) ++
    (if emptyCount > 0 then
      [toString emptyCount ++ " empty header(s) found"] else [])
  { isValid := missingHeaders.length == 0,
    missingHeaders := missingHeaders,
    normalizedHeaders := normalized,
    warnings := warnings }

/-- The `headers.findIndex(h => normalizeHeader(h) === required)` step,
with `none` for the source's `-1`. -/
def findHeaderIndex (headers : List String) (req : String) : Option Nat :=
  headers.findIdx? (fun h => normalizeHeader h == req)

/-- JS property read `row[key]`: a missing property is `undefined`. -/
def objGet (row : List (String × JSValue)) (key : String) : JSValue :=
  (row.lookup key).getD .undefined

/-- The emptiness test the validators apply to a required value:
`value === null || value === undefined || String(value).trim() === ""`. -/
def isEmptyJS : JSValue → Bool
  | .null => true
  | .undefined => true
  | .str s => jsTrim s == ""

/-- Result record of `validateRowData`. -/
structure RowValidationResult where
  isValid : Bool
  missingFields : List String
  emptyRequiredFields : List String
deriving DecidableEq, Repr

/-- `validateRowData` from headerValidation.ts: walk the required headers;
one whose position is not found in the header list goes to
`missingFields`, one found but holding an empty value goes to
`emptyRequiredFields`.  The source's single loop pushes each required
header to at most one of the two lists, in required order, which the two
passes below reproduce. -/
def validateRowData (row : List (String × JSValue)) (headers : List String) :
    RowValidationResult :=
  let missingFields :=
    REQUIRED_HEADERS.filter (fun req => (findHeaderIndex headers req).isNone)
  let emptyRequiredFields :=
    REQUIRED_HEADERS.filterMap (fun req =>
      match findHeaderIndex headers req with
      | some idx =>
        if isEmptyJS (objGet row (headers.getD idx "")) then some req else none
      | none => none)
  { isValid := missingFields.length == 0 && emptyRequiredFields.length == 0,
    missingFields := missingFields,
    emptyRequiredFields := emptyRequiredFields }

/-- `createMissingHeadersMessage` from headerValidation.ts. -/
def createMissingHeadersMessage (missingHeaders : List String) : String :=
  if missingHeaders.length = 0 then ""
  else if missingHeaders.length = 1 then
    "Missing required header: " ++ missingHeaders.headD ""
  else
    "Missing required headers: " ++ joinSep ", " missingHeaders.dropLast ++
      " and " ++ missingHeaders.getLastD ""

/-- One empty-required-value error of `validateCSVDataRows`. -/
structure EmptyValueError where
  rowNumber : Nat
  field : String
  value : JSValue
deriving DecidableEq, Repr

/-- The inner loop of `validateCSVDataRows` for one row: for each required
header found in the header list, report the row's value under that header
when it is empty. -/
def errorsForRow (rowNumber : Nat) (row : List (String × JSValue))
    (headers : List String) : List EmptyValueError :=
  REQUIRED_HEADERS.filterMap (fun req =>
    match findHeaderIndex headers req with
    | some idx =>
      let headerName := headers.getD idx ""
      let value := objGet row headerName
      if isEmptyJS value then some ⟨rowNumber, req, value⟩ else none
    | none => none)

/-- The `csvData.forEach((row, index) => ...)` loop of
`validateCSVDataRows`, carrying the running index; the row number is the
index plus 2 (line 1 is the header line). -/
def rowErrors : Nat → List (List (String × JSValue)) → List String →
    List EmptyValueError
  | _, [], _ => []
  | i, row :: rest, headers =>
    errorsForRow (i + 2) row headers ++ rowErrors (i + 1) rest headers

/-- Result record of `validateCSVDataRows`. -/
structure CSVDataRowsResult where
  isValid : Bool
  emptyValueErrors : List EmptyValueError
  totalErrors : Nat
  warnings : List String
deriving DecidableEq, Repr

/-- `validateCSVDataRows` from headerValidation.ts. -/
def validateCSVDataRows (csvData : List (List (String × JSValue)))
    (headers : List String) : CSVDataRowsResult :=
  let emptyValueErrors := rowErrors 0 csvData headers
  let warnings :=
    if emptyValueErrors.length > 0 then
      [toString emptyValueErrors.length ++
        " empty required value(s) found in data rows"]
    else []
  { isValid := emptyValueErrors.length == 0,
    emptyValueErrors := emptyValueErrors,
    totalErrors := emptyValueErrors.length,
    warnings := warnings }

/-- Insert a key into the ascending key list of a JS object with numeric
keys: re-inserting an existing key changes nothing, a new key lands at
its ascending position (JS objects enumerate integer-like keys in
ascending numeric order). -/
def insertAsc (n : Nat) : List Nat → List Nat
  | [] => [n]
  | m :: rest =>
    if n = m then m :: rest
    else if n < m then n :: m :: rest
    else m :: insertAsc n rest

/-- The key set of the `errorsByRow` object built by the `reduce` in
`createEmptyValuesMessage`: the distinct row numbers, enumerated in
ascending numeric order as `Object.entries` does for integer-like keys. -/
def sortedRowNumbers (errors : List EmptyValueError) : List Nat :=
  errors.foldl (fun acc e => insertAsc e.rowNumber acc) []

/-- The field list accumulated under one row number by that `reduce`:
the fields of the errors carrying this row number, in push order. -/
def fieldsForRow (errors : List EmptyValueError) (n : Nat) : List String :=
  (errors.filter (fun e => e.rowNumber == n)).map (fun e => e.field)

/-- The per-row message of `createEmptyValuesMessage`: `fields[0]` when the
row has one missing field, the comma-joined fields otherwise. -/
def renderRowMessage (errors : List EmptyValueError) (n : Nat) : String :=
  let fields := fieldsForRow errors n
  if fields.length = 1 then
    "Row " ++ toString n ++ ": Missing " ++ fields.headD ""
  else
    "Row " ++ toString n ++ ": Missing " ++ joinSep ", " fields

/-- `createEmptyValuesMessage` from headerValidation.ts: group the errors
by row number, render one message per row, and past 3 rows keep the first
3 messages and append " and K more row(s)". -/
def createEmptyValuesMessage (errors : List EmptyValueError) : String :=
  if errors.length = 0 then ""
  else
    let errorMessages := (sortedRowNumbers errors).map (renderRowMessage errors)
    if errorMessages.length ≤ 3 then joinSep "; " errorMessages
    else
      joinSep "; " (errorMessages.take 3) ++ " and " ++
        toString (errorMessages.length - 3) ++ " more row(s)"

/-- `String.prototype.split(sep)` for a one-character separator, on the
character list; splitting the empty string yields one empty piece, as in
JS. -/
def splitListOn (sep : Char) : List Char → List (List Char)
  | [] => [[]]
  | c :: rest =>
    if c = sep then [] :: splitListOn sep rest
    else
      match splitListOn sep rest with
      | h :: t => (c :: h) :: t
      | [] => [[c]]

/-- The `replace(/^["']|["']$/g, "")` step of the parser: strip one
leading and one trailing quote character (double or single), each when
present.  On a one-character quote string the regex consumes the single
character as the leading match only, which the sequential strips
reproduce. -/
def stripQuotes (l : List Char) : List Char :=
  let l1 :=
    match l with
    | c :: rest => if c = '"' ∨ c = singleQuoteChar then rest else l
    | [] => []
  match l1.getLast? with
  | some c => if c = '"' ∨ c = singleQuoteChar then l1.dropLast else l1
  | none => l1

/-- JS property assignment `row[key] = v` on the association-list model:
overwrite in place when the key exists, append otherwise. -/
def objSet (row : List (String × String)) (key v : String) :
    List (String × String) :=
  if row.any (fun p => p.1 == key) then
    row.map (fun p => if p.1 == key then (key, v) else p)
  else row ++ [(key, v)]

/-- Result record of `parseCSVData`. -/
structure ParseResult where
  headers : List String
  data : List (List (String × String))
  errors : List String
deriving DecidableEq, Repr

/-- `parseCSVData` from headerValidation.ts: split on newlines, drop lines
blank after trimming, demand at least a header line and one data line,
then split each line naively on commas, trimming and quote-stripping each
token; a row value missing at a header's position (or empty, via
`values[index] || ""`) defaults to the empty string. -/
def parseCSVData (csvText : String) : ParseResult :=
  let lines :=
    ((splitListOn '\n' csvText.data).map (fun l => (⟨l⟩ : String))).filter
      (fun line => !(jsTrim line == ""))
  if lines.length < 2 then
    { headers := [], data := [],
      errors := ["CSV file must contain at least a header row and one data row"] }
  else
    let headerLine := jsTrim (lines.headD "")
    let headers := (splitListOn ',' headerLine.data).map
        (fun tok => (⟨stripQuotes (trimChars tok)⟩ : String))
    let data := (lines.drop 1).filterMap (fun rawLine =>
      let line := jsTrim rawLine
      if line == "" then none
      else
        let values := (splitListOn ',' line.data).map
            (fun v => (⟨stripQuotes (trimChars v)⟩ : String))
        some ((headers.enum).foldl
          (fun row p => objSet row p.2 (values.getD p.1 "")) []))
    { headers := headers, data := data, errors := [] }

/-- Specification-side reader for the round-trip claim: scan a CSV line,
splitting on commas that lie outside double quotes; inside quotes a
doubled double-quote denotes one literal double-quote.  This is the
"splitting on top-level commas while respecting the quoting" of the
spec, not a function of the source. -/
def splitQuotedAux : List Char → Bool → List Char → List String
  | [], _, cur => [⟨cur.reverse⟩]
  | c :: rest, true, cur =>
    if c = '"' then
      match rest with
      | d :: rest2 =>
        if d = '"' then splitQuotedAux rest2 true ('"' :: cur)
        else splitQuotedAux (d :: rest2) false cur
      | [] => splitQuotedAux [] false cur
    else splitQuotedAux rest true (c :: cur)
  | c :: rest, false, cur =>
    if c = '"' then splitQuotedAux rest true cur
    else if c = ',' then ⟨cur.reverse⟩ :: splitQuotedAux rest false []
    else splitQuotedAux rest false (c :: cur)

/-- Split a CSV line on top-level commas, respecting double-quoting
(specification-side reader for the round-trip claim). -/
def splitRespectingQuotes (s : String) : List String :=
  splitQuotedAux s.data false []

/-! ## Theorems -/

/-- The six injection prefixes are single characters, so the source's
`some(prefix => startsWith(prefix))` test is exactly "the first character
is a trigger character". -/
theorem any_isPrefixOf_iff_head (s : String) :
    (FORMULA_INJECTION_PREFIXES.any (fun p => p.data.isPrefixOf s.data) = true) ↔
      ∃ c ∈ formulaTriggerChars, s.data.head? = some c := by
  cases hd : s.data with
  | nil => simp [FORMULA_INJECTION_PREFIXES, formulaTriggerChars, List.isPrefixOf]
  | cons c cs =>
    simp only [FORMULA_INJECTION_PREFIXES, formulaTriggerChars, List.any_cons,
      List.any_nil, List.head?_cons, Option.some.injEq]
    constructor
    · intro h
      rcases Bool.or_eq_true_iff.mp h with h | h
      · exact ⟨'=', by simp, by simp [List.isPrefixOf] at h; exact h.symm⟩
      · rcases Bool.or_eq_true_iff.mp h with h | h
        · exact ⟨'+', by simp, by simp [List.isPrefixOf] at h; exact h.symm⟩
        · rcases Bool.or_eq_true_iff.mp h with h | h
          · exact ⟨'-', by simp, by simp [List.isPrefixOf] at h; exact h.symm⟩
          · rcases Bool.or_eq_true_iff.mp h with h | h
            · exact ⟨'@', by simp, by simp [List.isPrefixOf] at h; exact h.symm⟩
            · rcases Bool.or_eq_true_iff.mp h with h | h
              · exact ⟨'\t', by simp, by simp [List.isPrefixOf] at h; exact h.symm⟩
              · exact ⟨'\r', by simp, by simp [List.isPrefixOf] at h; exact h.symm⟩
    · rintro ⟨x, hx, rfl⟩
      fin_cases hx <;> simp [List.isPrefixOf]

/-- Unfolding `sanitizeCSVValue` on a string when the injection test fires. -/
theorem sanitizeCSVValue_str_pos (s : String)
    (h : FORMULA_INJECTION_PREFIXES.any (fun p => p.data.isPrefixOf s.data) = true) :
    sanitizeCSVValue (.str s) = "'" ++ s := by
  simp [sanitizeCSVValue, h]

/-- Unfolding `sanitizeCSVValue` on a string when the injection test fails. -/
theorem sanitizeCSVValue_str_neg (s : String)
    (h : FORMULA_INJECTION_PREFIXES.any (fun p => p.data.isPrefixOf s.data) = false) :
    sanitizeCSVValue (.str s) = s := by
  simp [sanitizeCSVValue, h]

/-- Appending strings concatenates their character lists. -/
theorem data_append (a b : String) : (a ++ b).data = a.data ++ b.data := rfl

/-- The character list of a single-quote-prefixed string. -/
theorem quote_append_data (s : String) :
    ("'" ++ s).data = singleQuoteChar :: s.data := rfl

/-- A single-quote-prefixed string is not itself at risk: its first
character is no trigger character. -/
theorem quote_prefixed_not_at_risk (s : String) :
    FORMULA_INJECTION_PREFIXES.any
      (fun p => p.data.isPrefixOf ("'" ++ s).data) = false := by
  rw [Bool.eq_false_iff]
  intro h
  obtain ⟨c, hc, hhead⟩ := (any_isPrefixOf_iff_head ("'" ++ s)).mp h
  rw [quote_append_data, List.head?_cons, Option.some.injEq] at hhead
  subst hhead
  revert hc
  decide

/-- Claim C2: a string whose first character is one of the six
formula-trigger characters is sanitized to a single quote followed by the
unchanged string; a string that does not begin with a trigger character
is returned unchanged; and sanitization is idempotent. -/
theorem sanitizeCSVValue_spec (s : String) :
    (∀ c, s.data.head? = some c → c ∈ formulaTriggerChars →
      sanitizeCSVValue (.str s) = "'" ++ s) ∧
    ((∀ c, s.data.head? = some c → c ∉ formulaTriggerChars) →
      sanitizeCSVValue (.str s) = s) ∧
    sanitizeCSVValue (.str (sanitizeCSVValue (.str s))) =
      sanitizeCSVValue (.str s) := by
  refine ⟨?_, ?_, ?_⟩
  · intro c hc htrig
    exact sanitizeCSVValue_str_pos s ((any_isPrefixOf_iff_head s).mpr ⟨c, htrig, hc⟩)
  · intro hsafe
    refine sanitizeCSVValue_str_neg s ?_
    rw [Bool.eq_false_iff]
    intro h
    obtain ⟨c, hc, hhead⟩ := (any_isPrefixOf_iff_head s).mp h
    exact hsafe c hhead hc
  · cases h : FORMULA_INJECTION_PREFIXES.any (fun p => p.data.isPrefixOf s.data) with
    | false =>
      rw [sanitizeCSVValue_str_neg s h]
      exact sanitizeCSVValue_str_neg s h
    | true =>
      rw [sanitizeCSVValue_str_pos s h,
        sanitizeCSVValue_str_neg _ (quote_prefixed_not_at_risk s)]

/-- Witness for C2 at concrete inputs: an at-risk value gains the quote,
a safe value is unchanged. -/
theorem sanitizeCSVValue_spec_witness :
    sanitizeCSVValue (.str "=SUM(A1:A2)") = "'=SUM(A1:A2)" ∧
    sanitizeCSVValue (.str "abc") = "abc" := by
  constructor
  · exact (sanitizeCSVValue_spec "=SUM(A1:A2)").1 '=' rfl (by decide)
  · refine (sanitizeCSVValue_spec "abc").2.1 ?_
    intro c hc
    have hc' : c = 'a' := by
      rw [show ("abc" : String).data = ['a', 'b', 'c'] from rfl,
        List.head?_cons, Option.some.injEq] at hc
      exact hc.symm
    subst hc'
    decide

/-- Claim C10: on `null` and `undefined` both sanitizer entry points return
the empty string — not the strings "null"/"undefined" that JavaScript
stringification would produce, and without any failure. -/
theorem sanitize_null_undefined_empty :
    sanitizeCSVValue .null = "" ∧ sanitizeCSVValue .undefined = "" ∧
    escapeCSVField .null = "" ∧ escapeCSVField .undefined = "" ∧
    jsString .null ≠ "" ∧ jsString .undefined ≠ "" := by
  refine ⟨rfl, rfl, rfl, rfl, by decide, by decide⟩

/-- Claim C9: `sanitizeCSVRow` yields a row with exactly the keys of its
input, in order; the values of `id`, `created_at` and `updated_at` are
kept untouched and every other value is replaced by its sanitization.
The input row is a pure value in this embedding, so it is unchanged by
construction (no mutation exists). -/
theorem sanitizeCSVRow_frame (row : List (String × JSValue)) :
    (sanitizeCSVRow row).map Prod.fst = row.map Prod.fst ∧
    List.Forall₂ (fun a b =>
      (a.1 = "id" ∨ a.1 = "created_at" ∨ a.1 = "updated_at" → b = a) ∧
      (¬(a.1 = "id" ∨ a.1 = "created_at" ∨ a.1 = "updated_at") →
        b = (a.1, .str (sanitizeCSVValue a.2))))
      row (sanitizeCSVRow row) := by
  constructor
  · induction row with
    | nil => rfl
    | cons p rest ih =>
      by_cases h : p.1 = "id" ∨ p.1 = "created_at" ∨ p.1 = "updated_at"
      · simpa [sanitizeCSVRow, h] using ih
      · simpa [sanitizeCSVRow, h] using ih
  · induction row with
    | nil => exact List.Forall₂.nil
    | cons p rest ih =>
      refine List.Forall₂.cons ⟨?_, ?_⟩ ih
      · intro h
        simp [h]
      · intro h
        simp [h]

/-- Claim C6: with one missing header the message is
"Missing required header: X"; with two or more it lists all but the last
joined by commas, followed by "and" and the last. -/
theorem createMissingHeadersMessage_formats (l : List String) (h : l ≠ []) :
    (∀ x, l = [x] →
      createMissingHeadersMessage l = "Missing required header: " ++ x) ∧
    (2 ≤ l.length →
      createMissingHeadersMessage l =
        "Missing required headers: " ++ joinSep ", " l.dropLast ++
          " and " ++ l.getLast h) := by
  constructor
  · rintro x rfl
    simp [createMissingHeadersMessage]
  · intro h2
    have h0 : ¬ l.length = 0 := by omega
    have h1 : ¬ l.length = 1 := by omega
    have hlast : l.getLast?.getD "" = l.getLast h := by
      rw [List.getLast?_eq_getLast l h]
      rfl
    simp [createMissingHeadersMessage, h0, h1, hlast]

/-- Witness for C6 at a concrete two-element input. -/
theorem createMissingHeadersMessage_formats_witness :
    createMissingHeadersMessage ["PartMark", "Material"] =
      "Missing required headers: PartMark and Material" := by
  have h := (createMissingHeadersMessage_formats ["PartMark", "Material"]
    (by decide)).2 (by decide)
  rw [h]
  decide

/-- Claim C3: when every one of the four required headers is matched, after
normalization, by at least one entry of the header list (any casing, any
order, any registered alias), `validateRequiredHeaders` reports validity
and no missing headers. -/
theorem validateRequiredHeaders_allPresent (headers : List String)
    (h : ∀ req ∈ REQUIRED_HEADERS, ∃ hd ∈ headers, normalizeHeader hd = req) :
    (validateRequiredHeaders headers).isValid = true ∧
    (validateRequiredHeaders headers).missingHeaders = [] := by
  have hmiss : REQUIRED_HEADERS.filter
      (fun req => !((headers.map normalizeHeader).any (fun x => x == req))) = [] := by
    rw [List.filter_eq_nil_iff]
    intro req hreq
    obtain ⟨hd, hhd, hnorm⟩ := h req hreq
    simp only [Bool.not_eq_true', Bool.not_eq_false]
    rw [List.any_eq_true]
    exact ⟨req, List.mem_map.mpr ⟨hd, hhd, hnorm⟩, by simp⟩
  constructor
  · simp only [validateRequiredHeaders, hmiss]
    rfl
  · simp only [validateRequiredHeaders, hmiss]

/-- Witness for C3 at the spec's Example 1 header list, which uses an
alias, two casings and the registered typo. -/
theorem validateRequiredHeaders_allPresent_witness :
    (validateRequiredHeaders
      ["partmark", "AssemblyMark", "material", "Thicknes"]).isValid = true ∧
    (validateRequiredHeaders
      ["partmark", "AssemblyMark", "material", "Thicknes"]).missingHeaders = [] :=
  validateRequiredHeaders_allPresent _ (by decide)

/-- Claim C7: when fewer than 2 lines survive the blank-line filter,
`parseCSVData` returns empty headers, empty data and the single parse
error — and, being a total function of this embedding, it does not
throw. -/
theorem parseCSVData_tooFewLines (csvText : String)
    (h : (((splitListOn '\n' csvText.data).map (fun l => (⟨l⟩ : String))).filter
      (fun line => !(jsTrim line == ""))).length < 2) :
    parseCSVData csvText =
      { headers := [], data := [],
        errors := ["CSV file must contain at least a header row and one data row"] } := by
  unfold parseCSVData
  rw [if_pos h]

/-- Witness for C7 at the spec's Example 2: a header line and no data
line. -/
theorem parseCSVData_tooFewLines_witness :
    parseCSVData "PartMark,AssemblyMark,Material,Thickness" =
      { headers := [], data := [],
        errors := ["CSV file must contain at least a header row and one data row"] } :=
  parseCSVData_tooFewLines _ (by decide)

/-- A required header's position is unfound exactly when no header
normalizes to it. -/
theorem findHeaderIndex_eq_none_iff (headers : List String) (req : String) :
    findHeaderIndex headers req = none ↔
      ∀ hd ∈ headers, normalizeHeader hd ≠ req := by
  simp [findHeaderIndex, List.findIdx?_eq_none_iff]

/-- Membership in the per-row error list of `validateCSVDataRows`: an
error is reported for required header `req` exactly when `req`'s position
is found and the row's value under the header at that position is
empty. -/
theorem mem_errorsForRow_iff (n : Nat) (row : List (String × JSValue))
    (headers : List String) (e : EmptyValueError) :
    e ∈ errorsForRow n row headers ↔
      ∃ req ∈ REQUIRED_HEADERS, ∃ idx,
        findHeaderIndex headers req = some idx ∧
        isEmptyJS (objGet row (headers.getD idx "")) = true ∧
        e = ⟨n, req, objGet row (headers.getD idx "")⟩ := by
  simp only [errorsForRow, List.mem_filterMap]
  constructor
  · rintro ⟨req, hreq, hsome⟩
    cases hidx : findHeaderIndex headers req with
    | none =>
      rw [hidx] at hsome
      simp at hsome
    | some idx =>
      rw [hidx] at hsome
      by_cases hemp : isEmptyJS (objGet row (headers.getD idx "")) = true
      · simp only [hemp, if_true] at hsome
        exact ⟨req, hreq, idx, hidx, hemp, by
          rw [Option.some.injEq] at hsome
          exact hsome.symm⟩
      · rw [Bool.not_eq_true] at hemp
        simp only [hemp] at hsome
        simp at hsome
  · rintro ⟨req, hreq, idx, hidx, hemp, rfl⟩
    refine ⟨req, hreq, ?_⟩
    rw [hidx]
    simp only [if_pos hemp]

/-- Membership in the whole error list produced by the row loop, with the
running start index made explicit. -/
theorem mem_rowErrors_iff (i : Nat) (rows : List (List (String × JSValue)))
    (headers : List String) (e : EmptyValueError) :
    e ∈ rowErrors i rows headers ↔
      ∃ j, ∃ hj : j < rows.length,
        e ∈ errorsForRow (i + j + 2) (rows.get ⟨j, hj⟩) headers := by
  induction rows generalizing i with
  | nil => simp [rowErrors]
  | cons row rest ih =>
    simp only [rowErrors, List.mem_append, ih]
    constructor
    · rintro (he | ⟨j, hj, he⟩)
      · exact ⟨0, by simp, by simpa using he⟩
      · refine ⟨j + 1, by simpa using Nat.succ_lt_succ hj, ?_⟩
        have harith : i + 1 + j + 2 = i + (j + 1) + 2 := by omega
        rw [harith] at he
        simpa using he
    · rintro ⟨j, hj, he⟩
      cases j with
      | zero =>
        left
        simpa using he
      | succ j =>
        right
        refine ⟨j, by simpa using Nat.lt_of_succ_lt_succ hj, ?_⟩
        have harith : i + 1 + j + 2 = i + (j + 1) + 2 := by omega
        rw [harith]
        simpa using he

/-- Claim C5: `validateCSVDataRows` reports an error tuple
`{rowNumber := i + 2, field := req, value := v}` exactly for the row
indices `i` and required headers `req` whose position is found in the
header list and whose value `v` at that header is empty (null, undefined
or blank after string conversion and trimming); and it is invalid exactly
when at least one such error exists. -/
theorem validateCSVDataRows_spec (csvData : List (List (String × JSValue)))
    (headers : List String) :
    (∀ e, e ∈ (validateCSVDataRows csvData headers).emptyValueErrors ↔
      ∃ i, ∃ hi : i < csvData.length, ∃ req ∈ REQUIRED_HEADERS, ∃ idx,
        findHeaderIndex headers req = some idx ∧
        isEmptyJS (objGet (csvData.get ⟨i, hi⟩) (headers.getD idx "")) = true ∧
        e = ⟨i + 2, req, objGet (csvData.get ⟨i, hi⟩) (headers.getD idx "")⟩) ∧
    ((validateCSVDataRows csvData headers).isValid = false ↔
      (validateCSVDataRows csvData headers).emptyValueErrors ≠ []) := by
  constructor
  · intro e
    have hfield : (validateCSVDataRows csvData headers).emptyValueErrors =
        rowErrors 0 csvData headers := rfl
    rw [hfield, mem_rowErrors_iff]
    simp only [Nat.zero_add, mem_errorsForRow_iff]
  · simp only [validateCSVDataRows]
    rw [Bool.eq_false_iff]
    simp [List.length_eq_zero]

/-- Claim C8: a required header whose position is not found in the header
list via normalization is reported by `validateRowData` as a missing
field, never as a per-row empty value; `validateRequiredHeaders` reports
it at file level among the missing headers; and `validateCSVDataRows`
never attributes a per-row empty-value error to it. -/
theorem requiredHeader_missing_fileLevel (headers : List String)
    (row : List (String × JSValue)) (csvData : List (List (String × JSValue)))
    (req : String) (hreq : req ∈ REQUIRED_HEADERS)
    (hnone : findHeaderIndex headers req = none) :
    req ∈ (validateRowData row headers).missingFields ∧
    req ∉ (validateRowData row headers).emptyRequiredFields ∧
    req ∈ (validateRequiredHeaders headers).missingHeaders ∧
    ∀ e ∈ (validateCSVDataRows csvData headers).emptyValueErrors,
      e.field ≠ req := by
  refine ⟨?_, ?_, ?_, ?_⟩
  · simp only [validateRowData]
    rw [List.mem_filter]
    exact ⟨hreq, by simp [hnone]⟩
  · simp only [validateRowData]
    intro hmem
    rw [List.mem_filterMap] at hmem
    obtain ⟨req2, _, hsome⟩ := hmem
    cases hidx : findHeaderIndex headers req2 with
    | none =>
      rw [hidx] at hsome
      simp at hsome
    | some idx =>
      rw [hidx] at hsome
      have hr2 : req2 = req := by
        by_cases hemp : isEmptyJS (objGet row (headers.getD idx "")) = true
        · simp only [hemp, if_true, Option.some.injEq] at hsome
          exact hsome
        · rw [Bool.not_eq_true] at hemp
          simp only [hemp] at hsome
          simp at hsome
      rw [hr2, hnone] at hidx
      cases hidx
  · have hall : ∀ hd ∈ headers, normalizeHeader hd ≠ req :=
      (findHeaderIndex_eq_none_iff headers req).mp hnone
    simp only [validateRequiredHeaders]
    rw [List.mem_filter]
    refine ⟨hreq, ?_⟩
    rw [Bool.not_eq_true']
    rw [List.any_eq_false]
    intro x hx
    rw [List.mem_map] at hx
    obtain ⟨hd, hhd, rfl⟩ := hx
    simpa using hall hd hhd
  · intro e he
    have hfield : (validateCSVDataRows csvData headers).emptyValueErrors =
        rowErrors 0 csvData headers := rfl
    rw [hfield, mem_rowErrors_iff] at he
    obtain ⟨j, hj, he2⟩ := he
    obtain ⟨req2, _, idx, hidx, _, rfl⟩ := (mem_errorsForRow_iff _ _ _ _).mp he2
    intro hfld
    have : req2 = req := hfld
    rw [this, hnone] at hidx
    cases hidx

/-- Witness for C8: with "Thickness" absent from the header list, the
missing header is reported at file level and never as an empty value. -/
theorem requiredHeader_missing_fileLevel_witness :
    "Thickness" ∈ (validateRowData [] ["PartMark", "AssemblyMark", "Material"]).missingFields ∧
    "Thickness" ∉ (validateRowData [] ["PartMark", "AssemblyMark", "Material"]).emptyRequiredFields ∧
    "Thickness" ∈ (validateRequiredHeaders ["PartMark", "AssemblyMark", "Material"]).missingHeaders ∧
    ∀ e ∈ (validateCSVDataRows [[]] ["PartMark", "AssemblyMark", "Material"]).emptyValueErrors,
      e.field ≠ "Thickness" :=
  requiredHeader_missing_fileLevel _ [] [[]] "Thickness" (by decide) (by decide)

/-- Membership after inserting a key into the ascending key list. -/
theorem mem_insertAsc (n m : Nat) (l : List Nat) :
    m ∈ insertAsc n l ↔ m = n ∨ m ∈ l := by
  induction l with
  | nil => simp [insertAsc]
  | cons k rest ih =>
    by_cases h1 : n = k
    · subst h1
      simp only [insertAsc, if_pos rfl]
      constructor
      · intro h
        exact Or.inr h
      · rintro (rfl | h)
        · exact List.mem_cons_self _ _
        · exact h
    · by_cases h2 : n < k
      · simp [insertAsc, h1, h2]
      · simp [insertAsc, h1, h2, ih]
        tauto

/-- The head of the list after an insertion is the inserted key or the old
head. -/
theorem head?_insertAsc (n : Nat) (l : List Nat) (y : Nat)
    (h : (insertAsc n l).head? = some y) :
    y = n ∨ l.head? = some y := by
  cases l with
  | nil =>
    simp [insertAsc] at h
    exact Or.inl h.symm
  | cons k rest =>
    by_cases h1 : n = k
    · simp only [insertAsc, if_pos h1] at h
      exact Or.inr h
    · by_cases h2 : n < k
      · simp only [insertAsc, if_neg h1, if_pos h2, List.head?_cons,
          Option.some.injEq] at h
        exact Or.inl h.symm
      · simp only [insertAsc, if_neg h1, if_neg h2, List.head?_cons,
          Option.some.injEq] at h
        exact Or.inr (by rw [List.head?_cons, h])

/-- Inserting a key preserves strict ascending order. -/
theorem sorted_insertAsc (n : Nat) (l : List Nat)
    (h : l.Chain' (· < ·)) : (insertAsc n l).Chain' (· < ·) := by
  induction l with
  | nil => simp [insertAsc]
  | cons k rest ih =>
    rw [List.chain'_cons'] at h
    by_cases h1 : n = k
    · simp only [insertAsc, if_pos h1]
      rw [List.chain'_cons']
      exact h
    · by_cases h2 : n < k
      · simp only [insertAsc, if_neg h1, if_pos h2]
        rw [List.chain'_cons']
        refine ⟨?_, ?_⟩
        · intro y hy
          simp only [List.head?_cons, Option.mem_def, Option.some.injEq] at hy
          omega
        · rw [List.chain'_cons']
          exact h
      · simp only [insertAsc, if_neg h1, if_neg h2]
        rw [List.chain'_cons']
        refine ⟨?_, ih h.2⟩
        intro y hy
        rcases head?_insertAsc n rest y (Option.mem_def.mp hy) with rfl | hy2
        · omega
        · exact h.1 y (Option.mem_def.mpr hy2)

/-- The grouping key list of `createEmptyValuesMessage` is strictly
ascending. -/
theorem sortedRowNumbers_sorted (errors : List EmptyValueError) :
    (sortedRowNumbers errors).Chain' (· < ·) := by
  have general : ∀ (es : List EmptyValueError) (acc : List Nat),
      acc.Chain' (· < ·) →
      (es.foldl (fun a e => insertAsc e.rowNumber a) acc).Chain' (· < ·) := by
    intro es
    induction es with
    | nil => intro acc hacc; exact hacc
    | cons e rest ih =>
      intro acc hacc
      exact ih _ (sorted_insertAsc e.rowNumber acc hacc)
  exact general errors [] (by simp)

/-- The grouping key list of `createEmptyValuesMessage` holds exactly the
row numbers occurring among the errors. -/
theorem mem_sortedRowNumbers (errors : List EmptyValueError) (n : Nat) :
    n ∈ sortedRowNumbers errors ↔ ∃ e ∈ errors, e.rowNumber = n := by
  have general : ∀ (es : List EmptyValueError) (acc : List Nat),
      n ∈ es.foldl (fun a e => insertAsc e.rowNumber a) acc ↔
        n ∈ acc ∨ ∃ e ∈ es, e.rowNumber = n := by
    intro es
    induction es with
    | nil => intro acc; simp
    | cons e rest ih =>
      intro acc
      rw [List.foldl_cons, ih, mem_insertAsc]
      constructor
      · rintro ((rfl | h) | h)
        · exact Or.inr ⟨e, by simp⟩
        · exact Or.inl h
        · obtain ⟨e2, he2, hn⟩ := h
          exact Or.inr ⟨e2, List.mem_cons_of_mem _ he2, hn⟩
      · rintro (h | ⟨e2, he2, hn⟩)
        · exact Or.inl (Or.inr h)
        · rcases List.mem_cons.mp he2 with rfl | he3
          · exact Or.inl (Or.inl hn.symm)
          · exact Or.inr ⟨e2, he3, hn⟩
  rw [sortedRowNumbers, general errors []]
  simp

/-- The two render branches of `createEmptyValuesMessage` coincide with
the uniform comma-joined form, since joining a one-element list is that
element. -/
theorem renderRowMessage_eq (errors : List EmptyValueError) (n : Nat) :
    renderRowMessage errors n =
      "Row " ++ toString n ++ ": Missing " ++
        joinSep ", " (fieldsForRow errors n) := by
  unfold renderRowMessage
  by_cases hl : (fieldsForRow errors n).length = 1
  · obtain ⟨x, hx⟩ := List.length_eq_one.mp hl
    simp [hl, hx, joinSep]
  · simp [hl]

/-- Claim C4 (amended): `createEmptyValuesMessage` groups the errors by
row number (one group per distinct row number, enumerated in ascending
order), renders each group as "Row N: Missing F1, F2, ..." over the
group's fields, joins up to 3 group messages with "; ", and with more
than 3 distinct rows keeps the first 3 messages and appends
" and K more row(s)" where K is the number of remaining rows. -/
theorem createEmptyValuesMessage_spec (errors : List EmptyValueError)
    (h : errors ≠ []) :
    (sortedRowNumbers errors).Chain' (· < ·) ∧
    (∀ n, n ∈ sortedRowNumbers errors ↔ ∃ e ∈ errors, e.rowNumber = n) ∧
    ((sortedRowNumbers errors).length ≤ 3 →
      createEmptyValuesMessage errors =
        joinSep "; " ((sortedRowNumbers errors).map (fun n =>
          "Row " ++ toString n ++ ": Missing " ++
            joinSep ", " (fieldsForRow errors n)))) ∧
    (3 < (sortedRowNumbers errors).length →
      createEmptyValuesMessage errors =
        joinSep "; " (((sortedRowNumbers errors).map (fun n =>
          "Row " ++ toString n ++ ": Missing " ++
            joinSep ", " (fieldsForRow errors n))).take 3) ++
        " and " ++ toString ((sortedRowNumbers errors).length - 3) ++
        " more row(s)") := by
  have hlen : ¬ errors.length = 0 := by
    simpa [List.length_eq_zero] using h
  have hmap : (sortedRowNumbers errors).map (renderRowMessage errors) =
      (sortedRowNumbers errors).map (fun n =>
        "Row " ++ toString n ++ ": Missing " ++
          joinSep ", " (fieldsForRow errors n)) := by
    apply List.map_congr_left
    intro n _
    exact renderRowMessage_eq errors n
  refine ⟨sortedRowNumbers_sorted errors, mem_sortedRowNumbers errors, ?_, ?_⟩
  · intro h3
    unfold createEmptyValuesMessage
    rw [if_neg hlen, hmap]
    rw [if_pos (by rw [List.length_map]; exact h3)]
  · intro h3
    unfold createEmptyValuesMessage
    rw [if_neg hlen, hmap]
    rw [if_neg (by rw [List.length_map]; omega)]
    rw [List.length_map]

/-- Witness for C4's amended claim at a concrete two-row input: row 2 has
two missing fields, row 3 has one. -/
theorem createEmptyValuesMessage_spec_witness :
    createEmptyValuesMessage
      [⟨2, "PartMark", .str ""⟩, ⟨2, "Material", .null⟩,
       ⟨3, "Thickness", .str " "⟩] =
      "Row 2: Missing PartMark, Material; Row 3: Missing Thickness" := by
  have h := (createEmptyValuesMessage_spec
    [⟨2, "PartMark", .str ""⟩, ⟨2, "Material", .null⟩,
     ⟨3, "Thickness", .str " "⟩] (by decide)).2.2.1 (by decide)
  rw [h]
  decide

/-- Counterexample to C4 as stated: with 4 distinct offending rows the
produced message ends in " and 1 more row(s)", not in a literal
"+1 more row(s)" suffix. -/
theorem createEmptyValuesMessage_cex :
    createEmptyValuesMessage
      [⟨2, "PartMark", .str ""⟩, ⟨3, "Material", .str ""⟩,
       ⟨4, "Thickness", .str ""⟩, ⟨5, "PartMark", .str ""⟩] =
      "Row 2: Missing PartMark; Row 3: Missing Material; Row 4: Missing Thickness and 1 more row(s)" ∧
    ¬ (("+1 more row(s)" : String).data.isSuffixOf
        (createEmptyValuesMessage
          [⟨2, "PartMark", .str ""⟩, ⟨3, "Material", .str ""⟩,
           ⟨4, "Thickness", .str ""⟩, ⟨5, "PartMark", .str ""⟩]).data = true) := by
  decide

/-- Doubling the double quotes changes no other character: the containment
test is preserved. -/
theorem contains_doubleQuotes (c : Char) (l : List Char) :
    (doubleQuotes l).contains c = l.contains c := by
  induction l with
  | nil => rfl
  | cons d rest ih =>
    by_cases h : d = '"'
    · subst h
      rw [show doubleQuotes ('"' :: rest) = '"' :: '"' :: doubleQuotes rest from
        by simp [doubleQuotes]]
      rw [List.contains_cons, List.contains_cons, List.contains_cons, ih]
      cases hc : (c == '"') <;> simp
    · rw [show doubleQuotes (d :: rest) = d :: doubleQuotes rest from
        by simp [doubleQuotes, h]]
      rw [List.contains_cons, List.contains_cons, ih]

/-- Scanning a quote-doubled text followed by the closing quote, inside
quotes, undoes the doubling: the pending field closes holding the
accumulated characters followed by the original text. -/
theorem splitQuotedAux_doubleQuotes (t cur : List Char) :
    splitQuotedAux (doubleQuotes t ++ ['"']) true cur = [⟨cur.reverse ++ t⟩] := by
  induction t generalizing cur with
  | nil =>
    rw [show doubleQuotes [] ++ ['"'] = ['"'] from rfl]
    rw [splitQuotedAux.eq_def]
    simp [splitQuotedAux]
  | cons c rest ih =>
    by_cases h : c = '"'
    · subst h
      rw [show doubleQuotes ('"' :: rest) ++ ['"'] =
          '"' :: '"' :: (doubleQuotes rest ++ ['"']) from by simp [doubleQuotes]]
      rw [show splitQuotedAux ('"' :: '"' :: (doubleQuotes rest ++ ['"'])) true cur =
          splitQuotedAux (doubleQuotes rest ++ ['"']) true ('"' :: cur) from by
        rw [splitQuotedAux.eq_def]
        simp]
      rw [ih]
      simp
    · rw [show doubleQuotes (c :: rest) ++ ['"'] =
          c :: (doubleQuotes rest ++ ['"']) from by simp [doubleQuotes, h]]
      rw [show splitQuotedAux (c :: (doubleQuotes rest ++ ['"'])) true cur =
          splitQuotedAux (doubleQuotes rest ++ ['"']) true (c :: cur) from by
        rw [splitQuotedAux.eq_def]
        simp [h]]
      rw [ih]
      simp

/-- Claim C1 (amended): for a value containing a comma, `escapeCSVField`
wraps the quote-doubled sanitized value in double quotes, and splitting
the escaped field on top-level commas respecting the quoting recovers
exactly `sanitizeCSVValue` of the value — which is the original value
itself whenever the value does not begin with a formula-trigger
character. -/
theorem escapeCSVField_comma_roundTrip (s : String)
    (h : s.data.contains ',' = true) :
    escapeCSVField (.str s) =
      "\"" ++ (⟨doubleQuotes (sanitizeCSVValue (.str s)).data⟩ : String) ++ "\"" ∧
    splitRespectingQuotes (escapeCSVField (.str s)) = [sanitizeCSVValue (.str s)] ∧
    ((∀ c, s.data.head? = some c → c ∉ formulaTriggerChars) →
      sanitizeCSVValue (.str s) = s) := by
  have hsan : (sanitizeCSVValue (.str s)).data.contains ',' = true := by
    cases hb : FORMULA_INJECTION_PREFIXES.any (fun p => p.data.isPrefixOf s.data) with
    | true =>
      rw [sanitizeCSVValue_str_pos s hb, quote_append_data]
      rw [List.contains_cons]
      rw [h]
      simp
    | false =>
      rw [sanitizeCSVValue_str_neg s hb]
      exact h
  have hdq : (doubleQuotes (sanitizeCSVValue (.str s)).data).contains ',' = true := by
    rw [contains_doubleQuotes]
    exact hsan
  have hwrap : escapeCSVField (.str s) =
      "\"" ++ (⟨doubleQuotes (sanitizeCSVValue (.str s)).data⟩ : String) ++ "\"" := by
    have hcond : ((doubleQuotes (sanitizeCSVValue (.str s)).data).contains ',' ||
        (doubleQuotes (sanitizeCSVValue (.str s)).data).contains '\n' ||
        (doubleQuotes (sanitizeCSVValue (.str s)).data).contains '\r' ||
        (doubleQuotes (sanitizeCSVValue (.str s)).data).contains '"') = true := by
      rw [hdq]
      simp
    simp only [escapeCSVField]
    rw [if_pos hcond]
  refine ⟨hwrap, ?_, ?_⟩
  · rw [hwrap]
    show splitQuotedAux
      ('"' :: (doubleQuotes (sanitizeCSVValue (.str s)).data ++ ['"'])) false [] = _
    rw [show splitQuotedAux
        ('"' :: (doubleQuotes (sanitizeCSVValue (.str s)).data ++ ['"'])) false [] =
        splitQuotedAux
          (doubleQuotes (sanitizeCSVValue (.str s)).data ++ ['"']) true [] from by
      rw [splitQuotedAux.eq_def]
      simp]
    rw [splitQuotedAux_doubleQuotes]
    rfl
  · intro hsafe
    refine sanitizeCSVValue_str_neg s ?_
    rw [Bool.eq_false_iff]
    intro hb
    obtain ⟨c, hc, hhead⟩ := (any_isPrefixOf_iff_head s).mp hb
    exact hsafe c hhead hc

/-- Witness for C1's amended claim at a safe value containing a comma and
a quote: the escape wraps and doubles, and the split returns the original
value. -/
theorem escapeCSVField_comma_roundTrip_witness :
    escapeCSVField (.str "a,\"b\"") = "\"a,\"\"b\"\"\"" ∧
    splitRespectingQuotes (escapeCSVField (.str "a,\"b\"")) = ["a,\"b\""] := by
  have h := escapeCSVField_comma_roundTrip "a,\"b\"" (by decide)
  constructor
  · rw [h.1]
    decide
  · rw [h.2.1]
    decide

/-- Counterexample to C1 as stated: the at-risk value "=1,2" contains a
comma, yet splitting its escaped field back recovers the sanitized value
"'=1,2", not the original. -/
theorem escapeCSVField_comma_roundTrip_cex :
    ("=1,2" : String).data.contains ',' = true ∧
    splitRespectingQuotes (escapeCSVField (.str "=1,2")) = ["'=1,2"] ∧
    ("'=1,2" : String) ≠ "=1,2" := by
  decide

end ShopFloor
